import Mathlib

/-
  Verification of HyperDbX (HyperDB.js), a file-based database library with
  key-value operations, document collections, an in-memory TTL cache and a
  query matcher.

  Shallow embedding conventions:
  * JavaScript objects are association lists `List (String × JsVal)` in
    insertion order, mirroring both JS object literals and `Map` semantics
    (assignment to an existing key replaces in place, a new key appends).
  * The ambient effects `Date.now()` and `generateId()` are passed as
    explicit `now` / `genId` arguments.
  * Files on disk are modelled by their parsed JSON content; the Node
    `JSON.stringify` / `JSON.parse` pair is the identity on JSON-serializable
    values, so a file store directory is an association list from file name
    to stored value.
  * A JS method that can `throw` is modelled with `Except String`; the
    thrown message is the error value.  Mutation of `this` that survives a
    throw is modelled by returning the post state alongside the outcome.
-/

namespace HyperDbX

/-- JSON-like JavaScript runtime values: null, undefined, booleans, numbers
(modelled as integers), strings and objects (ordered field lists). -/
inductive JsVal where
  | vNull
  | vUndefined
  | vBool (b : Bool)
  | vNum (n : Int)
  | vStr (s : String)
  | vObj (fields : List (String × JsVal))
deriving Repr

/-- A JavaScript object: an ordered list of fields. -/
abbrev JsObj := List (String × JsVal)

/-- JS strict equality as performed by the source's comparisons: structural
on primitives.  The two operands of every comparison the code performs are a
query value and a value read out of a freshly parsed document, so two object
operands are always distinct heap references and strict equality on them is
false. -/
def jsEq : JsVal → JsVal → Bool
  | .vNull, .vNull => true
  | .vUndefined, .vUndefined => true
  | .vBool a, .vBool b => a == b
  | .vNum a, .vNum b => a == b
  | .vStr a, .vStr b => a == b
  | _, _ => false

/-- JavaScript truthiness: null, undefined, false, 0 and the empty string are
falsy; every object is truthy. -/
def truthy : JsVal → Bool
  | .vNull => false
  | .vUndefined => false
  | .vBool b => b
  | .vNum n => n != 0
  | .vStr s => s != ""
  | .vObj _ => true

/-- Property access `v[k]` on a JS value: on objects the first field with the
key (objects built by this model have no duplicate keys), on other non-null
primitives `undefined`.  Access on null/undefined is guarded at call sites
exactly where the source guards it. -/
def propAccess : JsVal → String → JsVal
  | .vObj fields, k =>
      match fields.lookup k with
      | some v => v
      | none => .vUndefined
  | _, _ => .vUndefined

/-- Property read on an object, `obj[k]`, yielding `undefined` when absent. -/
def getProp (fields : JsObj) (k : String) : JsVal :=
  propAccess (.vObj fields) k

/-- JS `a || b` on values: `a` if truthy, else `b`. -/
def jsOr (a b : JsVal) : JsVal :=
  if truthy a then a else b

/-- Assignment `m[k] = v` on an insertion-ordered map (JS object / `Map`):
replace in place when the key is present, append otherwise. -/
def mapSet (m : List (String × α)) (k : String) (v : α) : List (String × α) :=
  if m.any (fun p => p.1 = k) then
    m.map (fun p => if p.1 = k then (k, v) else p)
  else
    m ++ [(k, v)]

/-- Key-membership test on an insertion-ordered map. -/
def mapHas (m : List (String × α)) (k : String) : Bool :=
  m.any (fun p => p.1 = k)

/-- Deletion on an insertion-ordered map. -/
def mapDelete (m : List (String × α)) (k : String) : List (String × α) :=
  m.filter (fun p => p.1 ≠ k)

/-- First-match lookup on an insertion-ordered map. -/
def mapLookup (m : List (String × α)) (k : String) : Option α :=
  m.lookup k

/-- The key list of a map, in insertion order. -/
def mapKeys (m : List (String × α)) : List String :=
  m.map Prod.fst

/-- The JS `key.split('.')` splitter, written by structural recursion over
the character list (the empty string splits to `[""]`, separators at the ends
produce empty components, exactly as in JS). -/
def splitDotAux : List Char → List Char → List String
  | [], acc => [String.mk acc.reverse]
  | c :: cs, acc =>
      if c = '.' then String.mk acc.reverse :: splitDotAux cs []
      else splitDotAux cs (c :: acc)

/-- `key.split('.')`. -/
def splitDot (s : String) : List String :=
  splitDotAux s.data []

/-- `key.includes('.')`. -/
def hasDot (s : String) : Bool :=
  s.data.any (fun c => c = '.')

/-- Navigation of `utils.matches` along a dot path: before each step the
current value is checked against undefined/null (returning failure), then the
next property is read; the final value is not re-checked. -/
def navigate (v : JsVal) : List String → Option JsVal
  | [] => some v
  | p :: ps =>
      match v with
      | .vNull => none
      | .vUndefined => none
      | w => navigate (propAccess w p) ps

/-- One key of a query checked against an object by `utils.matches`: a key
containing a dot is split and navigated, other keys are compared directly;
comparison is JS strict equality (structural on these JSON values). -/
def matchesKey (obj : JsVal) (k : String) (qv : JsVal) : Bool :=
  if hasDot k then
    match navigate obj (splitDot k) with
    | none => false
    | some v => jsEq v qv
  else
    jsEq (propAccess obj k) qv

/-- The source function `matches(obj, query)` (the name `matches` is a Lean
keyword): false for falsy `obj`; otherwise the conjunction of all per-key
checks (the query object itself is always truthy here, matching the source
guard which only rejects null/undefined queries). -/
def jsMatches (obj : JsVal) (query : JsObj) : Bool :=
  truthy obj && query.all (fun kv => matchesKey obj kv.1 kv.2)

/-- Object spread `{...doc, ...upd}`: the fields of `doc` with the fields of
`upd` assigned over them left to right. -/
def spreadMerge (doc upd : JsObj) : JsObj :=
  upd.foldl (fun acc kv => mapSet acc kv.1 kv.2) doc

/-- Nested write of `utils.deepUpdate` along a split dot path: intermediate
properties that are not (truthy) objects are replaced by fresh empty objects,
and the final path component is assigned. -/
def setPath (obj : JsObj) : List String → JsVal → JsObj
  | [], _ => obj
  | [last], v => mapSet obj last v
  | p :: q :: rest, v =>
      let child : JsObj :=
        match getProp obj p with
        | .vObj fs => fs
        | _ => []
      mapSet obj p (.vObj (setPath child (q :: rest) v))

/-- `utils.deepUpdate(obj, update)`: dot-path keys are applied as nested
writes, plain keys as direct assignments, over a clone of `obj`. -/
def deepUpdate (obj upd : JsObj) : JsObj :=
  upd.foldl
    (fun acc kv =>
      if hasDot kv.1 then setPath acc (splitDot kv.1) kv.2
      else mapSet acc kv.1 kv.2)
    obj

/-- `utils.normalizeName`: replace every character outside `[a-zA-Z0-9_-]`
with an underscore, then lowercase the result. -/
def normalizeName (name : String) : String :=
  String.mk
    (((name.data.map fun c =>
        if c.isAlphanum || c = '_' || c = '-' then c else '_').map
      Char.toLower))

/-- The hit/miss/set/delete counters of MemoryCache. -/
structure CacheStats where
  hits : Nat
  misses : Nat
  sets : Nat
  deletes : Nat
deriving Repr, DecidableEq

/-- The state of a MemoryCache instance: the size bound and default TTL fixed
at construction, the two insertion-ordered maps `cache` (values) and `expiry`
(absolute expiration timestamps), and the statistics counters. -/
structure MemoryCacheState where
  maxSize : Nat
  ttl : Nat
  cache : List (String × JsVal)
  expiry : List (String × Nat)
  stats : CacheStats
deriving Repr

/-- The MemoryCache constructor: `maxSize = options.maxSize || 1000` and
`ttl = options.ttl || 3600000` (a zero argument is falsy and falls back to
the default), with empty maps and zeroed stats. -/
def mkMemoryCache (maxSize ttl : Nat) : MemoryCacheState :=
  { maxSize := if maxSize = 0 then 1000 else maxSize
    ttl := if ttl = 0 then 3600000 else ttl
    cache := []
    expiry := []
    stats := ⟨0, 0, 0, 0⟩ }

/-- `MemoryCache.delete(key)`: when the key is in the value map, remove it
from both maps and count a delete, reporting true; otherwise report false. -/
def MemoryCache.delete (st : MemoryCacheState) (key : String) :
    Bool × MemoryCacheState :=
  if mapHas st.cache key then
    (true, { st with
      cache := mapDelete st.cache key
      expiry := mapDelete st.expiry key
      stats := { st.stats with deletes := st.stats.deletes + 1 } })
  else
    (false, st)

/-- The scan of `MemoryCache._evictOldest` over the expiry map: starting from
no candidate (time Infinity), each entry with a strictly smaller time than the
current candidate becomes the candidate, so the first entry with the minimal
time wins. -/
def evictCandidate (entries : List (String × Nat)) : Option (String × Nat) :=
  entries.foldl
    (fun acc kv =>
      match acc with
      | none => some kv
      | some best => if kv.2 < best.2 then some kv else acc)
    none

/-- `MemoryCache._evictOldest()`: find the entry with the lowest expiry time
and delete it — but only when the found key is truthy (`if (oldestKey)`), so
an empty-string key is never evicted. -/
def MemoryCache._evictOldest (st : MemoryCacheState) : MemoryCacheState :=
  match evictCandidate st.expiry with
  | some best => if best.1 ≠ "" then (MemoryCache.delete st best.1).2 else st
  | none => st

/-- `MemoryCache.set(key, value, ttl)`: evict once when at capacity and the
key is new, then assign the value and the expiry `now + ttl` and count a
set.  The optional per-call TTL defaults to the instance TTL. -/
def MemoryCache.set (st : MemoryCacheState) (key : String) (v : JsVal)
    (ttlArg : Option Nat) (now : Nat) : MemoryCacheState :=
  let ttl := ttlArg.getD st.ttl
  let st1 :=
    if st.cache.length ≥ st.maxSize ∧ ¬ (mapHas st.cache key = true) then
      MemoryCache._evictOldest st
    else st
  { st1 with
    cache := mapSet st1.cache key v
    expiry := mapSet st1.expiry key (now + ttl)
    stats := { st1.stats with sets := st1.stats.sets + 1 } }

/-- `MemoryCache.get(key)` at time `now`: a miss when the key is absent; when
the stored expiry time is strictly before `now`, delete the entry and miss
(lazy expiry); otherwise a hit returning the stored value.  A key with no
expiry entry is served (in the source `undefined < Date.now()` is false). -/
def MemoryCache.get (st : MemoryCacheState) (key : String) (now : Nat) :
    Option JsVal × MemoryCacheState :=
  if ¬ (mapHas st.cache key = true) then
    (none, { st with stats := { st.stats with misses := st.stats.misses + 1 } })
  else
    match mapLookup st.expiry key with
    | some expiryTime =>
        if expiryTime < now then
          let st1 := (MemoryCache.delete st key).2
          (none, { st1 with
            stats := { st1.stats with misses := st1.stats.misses + 1 } })
        else
          (mapLookup st.cache key,
           { st with stats := { st.stats with hits := st.stats.hits + 1 } })
    | none =>
        (mapLookup st.cache key,
         { st with stats := { st.stats with hits := st.stats.hits + 1 } })

/-- `MemoryCache.has(key)` at time `now`: false when absent; when the stored
expiry time has passed, delete the entry and report false; otherwise true. -/
def MemoryCache.has (st : MemoryCacheState) (key : String) (now : Nat) :
    Bool × MemoryCacheState :=
  if ¬ (mapHas st.cache key = true) then
    (false, st)
  else
    match mapLookup st.expiry key with
    | some expiryTime =>
        if expiryTime < now then
          (false, (MemoryCache.delete st key).2)
        else
          (true, st)
    | none => (true, st)

/-- `MemoryCache.clear()`: empty both maps and reset the stats. -/
def MemoryCache.clear (st : MemoryCacheState) : MemoryCacheState :=
  { st with cache := [], expiry := [], stats := ⟨0, 0, 0, 0⟩ }

/-- `MemoryCache.cleanup()` at time `now`: walk the expiry entries and delete
every entry whose time is strictly before `now`. -/
def MemoryCache.cleanup (st : MemoryCacheState) (now : Nat) : MemoryCacheState :=
  st.expiry.foldl
    (fun acc kv => if kv.2 < now then (MemoryCache.delete acc kv.1).2 else acc)
    st

/-- The public MemoryCache operations, for reasoning about every reachable
cache state. -/
inductive CacheOp where
  | opSet (key : String) (v : JsVal) (ttl : Option Nat) (now : Nat)
  | opGet (key : String) (now : Nat)
  | opHas (key : String) (now : Nat)
  | opDelete (key : String)
  | opClear
  | opCleanup (now : Nat)

/-- Apply one MemoryCache operation to a state (dropping the returned
value). -/
def applyCacheOp (st : MemoryCacheState) : CacheOp → MemoryCacheState
  | .opSet k v t n => MemoryCache.set st k v t n
  | .opGet k n => (MemoryCache.get st k n).2
  | .opHas k n => (MemoryCache.has st k n).2
  | .opDelete k => (MemoryCache.delete st k).2
  | .opClear => MemoryCache.clear st
  | .opCleanup n => MemoryCache.cleanup st n

/-- Run a sequence of operations from a fresh cache. -/
def runCacheOps (maxSize ttl : Nat) (ops : List CacheOp) : MemoryCacheState :=
  ops.foldl applyCacheOp (mkMemoryCache maxSize ttl)

/-- A stored document is a JS object. -/
abbrev Doc := JsObj

/-- JS template-literal stringification of a value, used for file names built
from document ids. -/
def jsToString : JsVal → String
  | .vNull => "null"
  | .vUndefined => "undefined"
  | .vBool b => if b then "true" else "false"
  | .vNum n => toString n
  | .vStr s => s
  | .vObj _ => "[object Object]"

/-- The message thrown by `FileStoreAdapter._ensureConnected()`. -/
def notConnectedMsg : String := "Not connected to FileStore database"

/-- The state of a FileStoreAdapter: the connected flag, the key/value
directory (file name to parsed JSON content), the in-memory set of collection
names (a JS `Set`, insertion ordered), and the collections directory tree
(per normalized collection name, file name to parsed document). -/
structure FileStoreState where
  connected : Bool
  kvFiles : List (String × JsVal)
  collections : List String
  collDirs : List (String × List (String × Doc))
deriving Repr

/-- `FileStoreAdapter.connect()`: directories are ensured and the persisted
collection list is loaded (already reflected in the state), then the
connected flag is raised. -/
def FileStoreAdapter.connect (st : FileStoreState) : Bool × FileStoreState :=
  (true, { st with connected := true })

/-- `FileStoreAdapter.close()`: lowers the connected flag and reports true. -/
def FileStoreAdapter.close (st : FileStoreState) : Bool × FileStoreState :=
  (true, { st with connected := false })

/-- `FileStoreAdapter.set(key, value)`: throws when not connected; otherwise
writes the serialized value to the file named by the key. -/
def FileStoreAdapter.set (st : FileStoreState) (key : String) (v : JsVal) :
    Except String (Bool × FileStoreState) :=
  if st.connected then
    .ok (true, { st with kvFiles := mapSet st.kvFiles (key ++ ".json") v })
  else
    .error notConnectedMsg

/-- `FileStoreAdapter.get(key)`: throws when not connected; otherwise returns
the parsed file content, or null (`none`) when the file does not exist. -/
def FileStoreAdapter.get (st : FileStoreState) (key : String) :
    Except String (Option JsVal) :=
  if st.connected then
    .ok (mapLookup st.kvFiles (key ++ ".json"))
  else
    .error notConnectedMsg

/-- `FileStoreAdapter.has(key)`: throws when not connected; otherwise reports
whether the key's file exists. -/
def FileStoreAdapter.has (st : FileStoreState) (key : String) :
    Except String Bool :=
  if st.connected then
    .ok (mapHas st.kvFiles (key ++ ".json"))
  else
    .error notConnectedMsg

/-- `FileStoreAdapter.delete(key)`: throws when not connected; false when the
file does not exist, otherwise unlinks it and reports true. -/
def FileStoreAdapter.delete (st : FileStoreState) (key : String) :
    Except String (Bool × FileStoreState) :=
  if st.connected then
    if mapHas st.kvFiles (key ++ ".json") then
      .ok (true, { st with kvFiles := mapDelete st.kvFiles (key ++ ".json") })
    else
      .ok (false, st)
  else
    .error notConnectedMsg

/-- `FileStoreAdapter.getCollections()`: throws when not connected; otherwise
lists the known collection names. -/
def FileStoreAdapter.getCollections (st : FileStoreState) :
    Except String (List String) :=
  if st.connected then
    .ok st.collections
  else
    .error notConnectedMsg

/-- `FileStoreAdapter.createCollection(name)`: throws when not connected;
otherwise normalizes the name, creates the collection directory if absent,
and adds the name to the collection set (persisting the list) if new. -/
def FileStoreAdapter.createCollection (st : FileStoreState) (name : String) :
    Except String (Bool × FileStoreState) :=
  if st.connected then
    let n := normalizeName name
    let dirs := if mapHas st.collDirs n then st.collDirs else st.collDirs ++ [(n, [])]
    let cols := if st.collections.contains n then st.collections else st.collections ++ [n]
    .ok (true, { st with collDirs := dirs, collections := cols })
  else
    .error notConnectedMsg

/-- `FileStoreAdapter.insert(collection, document)`: throws when not
connected; otherwise ensures the collection, copies the document, assigns a
generated id when neither `id` nor `_id` is truthy, unconditionally stamps
`created_at` and `updated_at` with `now`, and writes the document to the file
named by its id (overwriting any document already stored under that id). -/
def FileStoreAdapter.insert (st : FileStoreState) (collection : String)
    (document : Doc) (genId : String) (now : Nat) :
    Except String (Bool × FileStoreState) :=
  if st.connected then
    let normalizedName := normalizeName collection
    match FileStoreAdapter.createCollection st normalizedName with
    | .error e => .error e
    | .ok (_, st1) =>
      let docWithId :=
        if ¬ (truthy (getProp document "id") = true) ∧
           ¬ (truthy (getProp document "_id") = true) then
          mapSet document "id" (.vStr genId)
        else document
      let id := jsOr (getProp docWithId "id") (getProp docWithId "_id")
      let doc2 :=
        mapSet (mapSet docWithId "created_at" (.vNum now)) "updated_at" (.vNum now)
      let fname := jsToString id ++ ".json"
      let dir := (mapLookup st1.collDirs normalizedName).getD []
      .ok (true, { st1 with
        collDirs := mapSet st1.collDirs normalizedName (mapSet dir fname doc2) })
  else
    .error notConnectedMsg

/-- `FileStoreAdapter.findOne(collection, query)`: throws when not connected;
null for an unknown collection; when `query.id || query._id` is truthy, reads
the single file named by that id directly (without running the query matcher);
otherwise scans the collection directory and returns the first document
accepted by the matcher. -/
def FileStoreAdapter.findOne (st : FileStoreState) (collection : String)
    (query : JsObj) : Except String (Option Doc) :=
  if st.connected then
    let n := normalizeName collection
    if ¬ (st.collections.contains n = true) then
      .ok none
    else
      let dir := (mapLookup st.collDirs n).getD []
      let qid := jsOr (getProp query "id") (getProp query "_id")
      if truthy qid then
        .ok (mapLookup dir (jsToString qid ++ ".json"))
      else
        .ok ((dir.find? (fun fd => jsMatches (.vObj fd.2) query)).map Prod.snd)
  else
    .error notConnectedMsg

/-- `FileStoreAdapter.find(collection, query)`: throws when not connected;
empty for an unknown collection; otherwise reads every document file and
keeps a document when the query is empty or the matcher accepts it. -/
def FileStoreAdapter.find (st : FileStoreState) (collection : String)
    (query : JsObj) : Except String (List Doc) :=
  if st.connected then
    let n := normalizeName collection
    if ¬ (st.collections.contains n = true) then
      .ok []
    else
      let dir := (mapLookup st.collDirs n).getD []
      .ok (dir.filterMap
        (fun fd =>
          if query.isEmpty || jsMatches (.vObj fd.2) query then some fd.2
          else none))
  else
    .error notConnectedMsg

/-- The per-document transformation of `FileStoreAdapter.update`:
`{ ...doc, ...update, updated_at: now }` — the patch is spread literally over
the document and the `updated_at` stamp is assigned. -/
def fileStoreUpdatedDoc (doc : Doc) (upd : JsObj) (now : Nat) : Doc :=
  mapSet (spreadMerge doc upd) "updated_at" (.vNum now)

/-- The file name derived from a document's id, `${doc.id || doc._id}.json`,
as computed by the write loop of `FileStoreAdapter.update`. -/
def docFileName (d : Doc) : String :=
  jsToString (jsOr (getProp d "id") (getProp d "_id")) ++ ".json"

/-- The per-document selection test of `find` (and hence of `update`):
accept every document when the query is empty, otherwise run the query
matcher. -/
def updateSelector (query : JsObj) (d : Doc) : Bool :=
  query.isEmpty || jsMatches (.vObj d) query

/-- The documents of a collection directory selected by `find` for a query,
in directory order. -/
def matchedDocs (dir : List (String × Doc)) (query : JsObj) : List Doc :=
  dir.filterMap (fun fd => if updateSelector query fd.2 then some fd.2 else none)

/-- The post-state specification of `update` on a collection directory:
every stored document matched by the query has its file rewritten to the
literal spread `{...doc, ...patch, updated_at: now}`, and every unmatched
document's file is untouched. -/
def updateWritten (dir' dir : List (String × Doc)) (query upd : JsObj)
    (now : Nat) : Prop :=
  ∀ fn d, (fn, d) ∈ dir →
    (updateSelector query d = true →
      mapLookup dir' fn = some (fileStoreUpdatedDoc d upd now)) ∧
    (updateSelector query d = false → mapLookup dir' fn = some d)

/-- `FileStoreAdapter.update(collection, query, update)`: throws when not
connected; 0 for an unknown collection or no match; otherwise selects the
matching documents via `find` and rewrites each one's file with the spread
merge of the patch, returning the number written. -/
def FileStoreAdapter.update (st : FileStoreState) (collection : String)
    (query upd : JsObj) (now : Nat) : Except String (Nat × FileStoreState) :=
  if st.connected then
    let n := normalizeName collection
    if ¬ (st.collections.contains n = true) then
      .ok (0, st)
    else
      match FileStoreAdapter.find st collection query with
      | .error e => .error e
      | .ok docs =>
        if docs.isEmpty then
          .ok (0, st)
        else
          let dir0 := (mapLookup st.collDirs n).getD []
          let dir1 := docs.foldl
            (fun d doc =>
              mapSet d (docFileName doc) (fileStoreUpdatedDoc doc upd now))
            dir0
          .ok (docs.length, { st with collDirs := mapSet st.collDirs n dir1 })
  else
    .error notConnectedMsg

/-- `FileStoreAdapter.deleteFrom(collection, query)`: throws when not
connected; 0 for an unknown collection; with a truthy id in the query,
unlinks that single file when present; otherwise selects via `find` and
unlinks each matched document's file, counting the files that existed. -/
def FileStoreAdapter.deleteFrom (st : FileStoreState) (collection : String)
    (query : JsObj) : Except String (Nat × FileStoreState) :=
  if st.connected then
    let n := normalizeName collection
    if ¬ (st.collections.contains n = true) then
      .ok (0, st)
    else
      let dir := (mapLookup st.collDirs n).getD []
      let qid := jsOr (getProp query "id") (getProp query "_id")
      if truthy qid then
        let fname := jsToString qid ++ ".json"
        if mapHas dir fname then
          .ok (1, { st with collDirs := mapSet st.collDirs n (mapDelete dir fname) })
        else
          .ok (0, st)
      else
        match FileStoreAdapter.find st collection query with
        | .error e => .error e
        | .ok docs =>
          if docs.isEmpty then
            .ok (0, st)
          else
            let res := docs.foldl
              (fun (p : List (String × Doc) × Nat) doc =>
                let id := jsOr (getProp doc "id") (getProp doc "_id")
                let fname := jsToString id ++ ".json"
                if mapHas p.1 fname then (mapDelete p.1 fname, p.2 + 1) else p)
              (dir, 0)
            .ok (res.2, { st with collDirs := mapSet st.collDirs n res.1 })
  else
    .error notConnectedMsg

/-- The state of a HyperDB instance without security, cloud sync or realtime
sync configured: the memory cache and the storage engine's file store
adapter (the StorageEngine key/value methods delegate directly to the
adapter). -/
structure HyperDBState where
  cache : MemoryCacheState
  storage : FileStoreState
deriving Repr

/-- `HyperDB.set(key, value)`: the memory cache is updated first and
unconditionally, then the adapter write is awaited; an adapter throw
propagates (leaving the already-updated cache in place), and a false adapter
result is returned without touching the cache again.  The cache assignment
textually precedes the adapter call in the source; neither reads the other's
state, so the net state is recorded here per adapter outcome, with the cache
updated in both. -/
def HyperDB.set (st : HyperDBState) (key : String) (v : JsVal) (now : Nat) :
    Except String Bool × HyperDBState :=
  match FileStoreAdapter.set st.storage key v with
  | .ok (result, stor) =>
      (.ok result,
       { cache := MemoryCache.set st.cache key v none now, storage := stor })
  | .error e =>
      (.error e,
       { cache := MemoryCache.set st.cache key v none now
         storage := st.storage })

/-- `HyperDB.delete(key)`: the cache entry is removed first, then the adapter
delete is awaited; an adapter throw propagates with the cache entry already
gone. -/
def HyperDB.delete (st : HyperDBState) (key : String) :
    Except String Bool × HyperDBState :=
  match FileStoreAdapter.delete st.storage key with
  | .ok (result, stor) =>
      (.ok result,
       { cache := (MemoryCache.delete st.cache key).2, storage := stor })
  | .error e =>
      (.error e,
       { cache := (MemoryCache.delete st.cache key).2
         storage := st.storage })

/-- The step function of the `_evictOldest` scan. -/
def evictStep (acc : Option (String × Nat)) (kv : String × Nat) :
    Option (String × Nat) :=
  match acc with
  | none => some kv
  | some best => if kv.2 < best.2 then some kv else acc

/-- A fresh HyperDB state whose adapter has not finished connecting (the
constructor fires `_loadInitialData` without awaiting it, so operations can
run before `connect()` succeeds). -/
def hdb0 : HyperDBState :=
  { cache := mkMemoryCache 1000 3600000
    storage := ⟨false, [], [], []⟩ }

/-- Whether the entry stored for `key` has an expiry timestamp strictly
before `now` (an entry with no expiry timestamp never expires, as in the
source where `undefined < Date.now()` is false). -/
def expiredAt (st : MemoryCacheState) (key : String) (now : Nat) : Bool :=
  match mapLookup st.expiry key with
  | some t => decide (t < now)
  | none => false

/-- The invariant of C10: the two maps of a cache state list exactly the same
keys, in the same order. -/
def keysAligned (st : MemoryCacheState) : Prop :=
  mapKeys st.cache = mapKeys st.expiry

/-- The adapter state after an insert, for building concrete scenarios (the
fallback state is never reached in those scenarios). -/
def stateAfter (r : Except String (Bool × FileStoreState)) : FileStoreState :=
  match r with
  | .ok p => p.2
  | .error _ => ⟨false, [], [], []⟩

/-- The state after inserting `{id: "a", x: 1}` at time 1 into a fresh
connected store. -/
def c2st1 : FileStoreState :=
  stateAfter (FileStoreAdapter.insert ⟨true, [], [], []⟩ "c"
    [("id", .vStr "a"), ("x", .vNum 1)] "g1" 1)

/-- The state after re-inserting id "a" (as `{id: "a", x: 2}`) at time 5. -/
def c2st2 : FileStoreState :=
  stateAfter (FileStoreAdapter.insert c2st1 "c"
    [("id", .vStr "a"), ("x", .vNum 2)] "g2" 5)

/-- The state after inserting a document identified only by `_id` ("b") at
time 1 into a fresh connected store. -/
def c2idSt : FileStoreState :=
  stateAfter (FileStoreAdapter.insert ⟨true, [], [], []⟩ "c"
    [("_id", .vStr "b")] "g1" 1)

/-- The state written by `FileStoreAdapter.insert` when it replaces the
document stored under an existing truthy id. -/
def insertReplacedState (st : FileStoreState) (coll : String) (doc : Doc)
    (now : Nat) (idv : JsVal) : FileStoreState :=
  { st with collDirs :=
      (mapSet st.collDirs coll
        (mapSet ((mapLookup st.collDirs coll).getD [])
          (jsToString idv ++ ".json")
          (mapSet (mapSet doc "created_at" (.vNum now))
            "updated_at" (.vNum now)))) }

/-- The adapter state carried by an update/deleteFrom result, for building
concrete scenarios (the fallback state is never reached in them). -/
def stateAfterCount (r : Except String (Nat × FileStoreState)) :
    FileStoreState :=
  match r with
  | .ok p => p.2
  | .error _ => ⟨false, [], [], []⟩

/-- A connected store with one collection "c" holding one document with a
nested object field. -/
def c3st : FileStoreState :=
  ⟨true, [], ["c"],
    [("c", [("a.json",
      [("id", .vStr "a"), ("meta", .vObj [("count", .vNum 1)])])])]⟩

/-- The state after `update("c", {id: "a"}, {"meta.count": 2})` at time 9. -/
def c3st2 : FileStoreState :=
  stateAfterCount (FileStoreAdapter.update c3st "c" [("id", .vStr "a")]
    [("meta.count", .vNum 2)] 9)

/-- The document stored after that update. -/
def c3newDoc : Doc :=
  (mapLookup ((mapLookup c3st2.collDirs "c").getD []) "a.json").getD []

/-- A connected store whose collection "c" holds three documents, two of
them in group "g1" and one in group "g2". -/
def c3multiSt : FileStoreState :=
  ⟨true, [], ["c"],
    [("c",
      [("a.json", [("id", .vStr "a"), ("grp", .vStr "g1"),
        ("meta", .vObj [("count", .vNum 1)])]),
       ("b.json", [("id", .vStr "b"), ("grp", .vStr "g1")]),
       ("d.json", [("id", .vStr "d"), ("grp", .vStr "g2")])])]⟩

/-- A connected store whose only document has id "a" and status "inactive". -/
def c5st : FileStoreState :=
  ⟨true, [], ["c"],
    [("c", [("a.json", [("id", .vStr "a"), ("status", .vStr "inactive")])])]⟩

/-- A query matching on both the id and another field. -/
def c5q : JsObj := [("id", .vStr "a"), ("status", .vStr "active")]

/-! ### Generic lemmas about the insertion-ordered maps -/

theorem lookupCons {α : Type} (a k : String) (b : α) (t : List (String × α)) :
    List.lookup k ((a, b) :: t) = if k = a then some b else List.lookup k t := by
  by_cases h : k = a
  · simp [List.lookup, h]
  · simp [List.lookup, h, beq_false_of_ne h]

theorem mapHas_false_lookup {α : Type} (k : String) :
    ∀ (m : List (String × α)), mapHas m k = false → mapLookup m k = none
  | [], _ => rfl
  | (a, b) :: t, h => by
      simp only [mapHas, List.any_cons, Bool.or_eq_false_iff,
        decide_eq_false_iff_not] at h
      simp only [mapLookup, lookupCons]
      rw [if_neg (fun hk => h.1 hk.symm)]
      exact mapHas_false_lookup k t (by simpa [mapHas] using h.2)

theorem lookup_replace_self {α : Type} (k : String) (v : α) :
    ∀ (m : List (String × α)), mapHas m k = true →
      List.lookup k (m.map fun p => if p.1 = k then (k, v) else p) = some v
  | (a, b) :: t, h => by
      simp only [List.map_cons]
      by_cases hp : a = k
      · rw [if_pos hp]
        simp [lookupCons]
      · rw [if_neg hp, lookupCons, if_neg (fun hk => hp hk.symm)]
        exact lookup_replace_self k v t (by simpa [mapHas, hp] using h)

theorem lookup_replace_other {α : Type} (k k' : String) (v : α) (h : k' ≠ k) :
    ∀ (m : List (String × α)),
      List.lookup k' (m.map fun p => if p.1 = k then (k, v) else p) =
        List.lookup k' m
  | [] => rfl
  | (a, b) :: t => by
      simp only [List.map_cons]
      by_cases hp : a = k
      · rw [if_pos hp, lookupCons, lookupCons, if_neg h,
          if_neg (fun hk => h (hk.trans hp))]
        exact lookup_replace_other k k' v h t
      · rw [if_neg hp, lookupCons, lookupCons]
        exact if_congr Iff.rfl rfl (lookup_replace_other k k' v h t)

theorem lookup_append_of_ne {α : Type} (k k' : String) (v : α) (h : k' ≠ k) :
    ∀ (m : List (String × α)),
      List.lookup k' (m ++ [(k, v)]) = List.lookup k' m
  | [] => by simp [List.lookup, beq_false_of_ne h]
  | (a, b) :: t => by
      simp only [List.cons_append, lookupCons]
      exact if_congr Iff.rfl rfl (lookup_append_of_ne k k' v h t)

theorem lookup_append_self {α : Type} (k : String) (v : α) :
    ∀ (m : List (String × α)), mapHas m k = false →
      List.lookup k (m ++ [(k, v)]) = some v
  | [], _ => by simp [lookupCons]
  | (a, b) :: t, h => by
      simp only [mapHas, List.any_cons, Bool.or_eq_false_iff,
        decide_eq_false_iff_not] at h
      simp only [List.cons_append, lookupCons]
      rw [if_neg (fun hk => h.1 hk.symm)]
      exact lookup_append_self k v t (by simpa [mapHas] using h.2)

theorem mapLookup_mapSet_self {α : Type} (m : List (String × α)) (k : String)
    (v : α) : mapLookup (mapSet m k v) k = some v := by
  unfold mapSet
  by_cases h : (m.any fun p => decide (p.1 = k)) = true
  · rw [if_pos h]
    exact lookup_replace_self k v m h
  · rw [if_neg h]
    exact lookup_append_self k v m (Bool.eq_false_iff.mpr h)

theorem mapLookup_mapSet_other {α : Type} (m : List (String × α))
    (k k' : String) (v : α) (h : k' ≠ k) :
    mapLookup (mapSet m k v) k' = mapLookup m k' := by
  unfold mapSet
  by_cases hm : (m.any fun p => decide (p.1 = k)) = true
  · rw [if_pos hm]
    exact lookup_replace_other k k' v h m
  · rw [if_neg hm]
    exact lookup_append_of_ne k k' v h m

theorem mapKeys_mapSet {α : Type} (m : List (String × α)) (k : String)
    (v : α) :
    mapKeys (mapSet m k v) =
      if mapHas m k = true then mapKeys m else mapKeys m ++ [k] := by
  unfold mapSet mapHas
  by_cases h : (m.any fun p => decide (p.1 = k)) = true
  · rw [if_pos h, if_pos h]
    unfold mapKeys
    rw [List.map_map]
    have hf : (Prod.fst ∘ fun p : String × α => if p.1 = k then (k, v) else p) =
        Prod.fst := by
      funext p
      by_cases hp : p.1 = k <;> simp [Function.comp, hp]
    rw [hf]
  · rw [if_neg h, if_neg h]
    unfold mapKeys
    rw [List.map_append]
    rfl

theorem mapKeys_mapDelete {α : Type} (k : String) :
    ∀ (m : List (String × α)),
      mapKeys (mapDelete m k) = (mapKeys m).filter (fun s => decide (s ≠ k))
  | [] => rfl
  | (a, b) :: t => by
      have ih := mapKeys_mapDelete k t
      by_cases hp : a = k
      · rw [show mapDelete ((a, b) :: t) k = mapDelete t k by
          unfold mapDelete
          rw [List.filter_cons, if_neg (by simp [hp])]]
        rw [ih]
        rw [show mapKeys ((a, b) :: t) = a :: mapKeys t from rfl]
        rw [List.filter_cons, if_neg (by simp [hp])]
      · rw [show mapDelete ((a, b) :: t) k = (a, b) :: mapDelete t k by
          unfold mapDelete
          rw [List.filter_cons, if_pos (by simp [hp])]]
        rw [show mapKeys ((a, b) :: mapDelete t k) =
          a :: mapKeys (mapDelete t k) from rfl, ih]
        rw [show mapKeys ((a, b) :: t) = a :: mapKeys t from rfl]
        rw [List.filter_cons, if_pos (by simp [hp])]

theorem mapHas_eq_keys {α : Type} (m : List (String × α)) (k : String) :
    mapHas m k = (mapKeys m).any (fun s => decide (s = k)) := by
  induction m with
  | nil => rfl
  | cons p t ih =>
      simp only [mapHas, mapKeys, List.any_cons, List.map_cons] at ih ⊢
      rw [ih]

theorem mem_keys_of_mapHas {α : Type} (m : List (String × α)) (k : String)
    (h : mapHas m k = true) : k ∈ mapKeys m := by
  rw [mapHas_eq_keys] at h
  obtain ⟨s, hs, he⟩ := List.any_eq_true.mp h
  exact (decide_eq_true_eq.mp he) ▸ hs

theorem mapHas_false_of_not_mem {α : Type} (m : List (String × α))
    (k : String) (h : k ∉ mapKeys m) : mapHas m k = false := by
  rw [mapHas_eq_keys, List.any_eq_false]
  intro s hs he
  exact h ((decide_eq_true_eq.mp he) ▸ hs)

theorem mapHas_congr_keys {α β : Type} (m1 : List (String × α))
    (m2 : List (String × β)) (h : mapKeys m1 = mapKeys m2) (k : String) :
    mapHas m1 k = mapHas m2 k := by
  rw [mapHas_eq_keys, mapHas_eq_keys, h]

theorem mapHas_mapSet_self {α : Type} (m : List (String × α)) (k : String)
    (v : α) : mapHas (mapSet m k v) k = true := by
  rw [mapHas_eq_keys, mapKeys_mapSet]
  by_cases h : mapHas m k = true
  · rw [if_pos h]
    rw [mapHas_eq_keys] at h
    exact h
  · rw [if_neg h]
    simp

theorem mapHas_mapSet_other {α : Type} (m : List (String × α))
    (k k' : String) (v : α) (h : k' ≠ k) :
    mapHas (mapSet m k v) k' = mapHas m k' := by
  have hkeys : ((mapKeys m).any fun s => decide (s = k)) = mapHas m k :=
    (mapHas_eq_keys m k).symm
  rw [mapHas_eq_keys, mapKeys_mapSet, mapHas_eq_keys, hkeys]
  by_cases hh : mapHas m k = true
  · rw [if_pos hh]
    exact (mapHas_eq_keys m k').symm
  · rw [if_neg hh, List.any_append]
    have hsingle : ([k].any fun s => decide (s = k')) = false := by
      simp only [List.any_cons, List.any_nil, Bool.or_false,
        decide_eq_false_iff_not]
      exact fun he => h he.symm
    rw [hsingle, Bool.or_false]
    exact (mapHas_eq_keys m k').symm

theorem mapHas_mapDelete_self {α : Type} (m : List (String × α)) (k : String) :
    mapHas (mapDelete m k) k = false := by
  rw [mapHas_eq_keys, mapKeys_mapDelete]
  simp

theorem mapHas_mapDelete_other {α : Type} (m : List (String × α))
    (k k' : String) (h : k' ≠ k) :
    mapHas (mapDelete m k) k' = mapHas m k' := by
  rw [mapHas_eq_keys, mapKeys_mapDelete, mapHas_eq_keys]
  induction mapKeys m with
  | nil => rfl
  | cons s t ih =>
      rw [List.filter_cons]
      by_cases hs : s = k
      · rw [if_neg (by simp [hs]), List.any_cons, ih]
        have hd : decide (s = k') = false := by
          simp only [decide_eq_false_iff_not]
          intro hk
          exact h (hk.symm.trans hs)
        rw [hd, Bool.false_or]
      · rw [if_pos (by simpa using hs), List.any_cons, List.any_cons, ih]

theorem mapLookup_mapDelete_other {α : Type} (k k' : String) (h : k' ≠ k) :
    ∀ (m : List (String × α)),
      mapLookup (mapDelete m k) k' = mapLookup m k'
  | [] => rfl
  | (a, b) :: t => by
      by_cases hp : a = k
      · rw [show mapDelete ((a, b) :: t) k = mapDelete t k by
          simp [mapDelete, List.filter_cons, hp]]
        rw [mapLookup_mapDelete_other k k' h t]
        unfold mapLookup
        rw [lookupCons, if_neg (fun hk => h (hk.trans hp))]
      · rw [show mapDelete ((a, b) :: t) k = (a, b) :: mapDelete t k by
          simp [mapDelete, List.filter_cons, hp]]
        unfold mapLookup
        rw [lookupCons, lookupCons]
        exact if_congr Iff.rfl rfl (mapLookup_mapDelete_other k k' h t)

theorem mapDelete_not_has {α : Type} (k : String) :
    ∀ (m : List (String × α)), mapHas m k = false → mapDelete m k = m
  | [], _ => rfl
  | (a, b) :: t, h => by
      simp only [mapHas, List.any_cons, Bool.or_eq_false_iff,
        decide_eq_false_iff_not] at h
      simp only [mapDelete, List.filter_cons, decide_eq_true_eq]
      rw [if_pos (by simpa using h.1)]
      rw [show List.filter (fun p => decide (p.1 ≠ k)) t = mapDelete t k from rfl,
        mapDelete_not_has k t (by simpa [mapHas] using h.2)]

theorem length_mapSet_has {α : Type} (m : List (String × α)) (k : String)
    (v : α) (h : mapHas m k = true) : (mapSet m k v).length = m.length := by
  unfold mapSet
  rw [if_pos (show (m.any fun p => decide (p.1 = k)) = true from h)]
  exact List.length_map m _

theorem length_mapSet_new {α : Type} (m : List (String × α)) (k : String)
    (v : α) (h : mapHas m k = false) :
    (mapSet m k v).length = m.length + 1 := by
  unfold mapSet
  rw [if_neg (show ¬ (m.any fun p => decide (p.1 = k)) = true from
    ne_true_of_eq_false h)]
  simp

theorem length_mapDelete_has {α : Type} (k : String) :
    ∀ (m : List (String × α)), (mapKeys m).Nodup → mapHas m k = true →
      (mapDelete m k).length + 1 = m.length
  | (a, b) :: t, hnd, h => by
      have hnd2 : a ∉ mapKeys t ∧ (mapKeys t).Nodup := by
        rw [show mapKeys ((a, b) :: t) = a :: mapKeys t from rfl] at hnd
        exact List.nodup_cons.mp hnd
      by_cases hp : a = k
      · have ht : mapHas t k = false := by
          apply mapHas_false_of_not_mem
          rw [← hp]
          exact hnd2.1
        rw [show mapDelete ((a, b) :: t) k = mapDelete t k by
          simp [mapDelete, List.filter_cons, hp]]
        rw [mapDelete_not_has k t ht]
        simp
      · have ht : mapHas t k = true := by
          simpa [mapHas, hp] using h
        rw [show mapDelete ((a, b) :: t) k = (a, b) :: mapDelete t k by
          simp [mapDelete, List.filter_cons, hp]]
        simpa using length_mapDelete_has k t hnd2.2 ht

theorem evictFold_spec :
    ∀ (l : List (String × Nat)) (acc : Option (String × Nat))
      (best : String × Nat),
      l.foldl evictStep acc = some best →
      (best ∈ l ∨ acc = some best) ∧ (∀ p ∈ l, best.2 ≤ p.2) ∧
        (∀ a, acc = some a → best.2 ≤ a.2)
  | [], acc, best, h => by
      simp only [List.foldl_nil] at h
      refine ⟨Or.inr h, by simp, ?_⟩
      intro a ha
      rw [h] at ha
      rw [Option.some_inj.mp ha]
  | x :: t, acc, best, h => by
      have ih := evictFold_spec t (evictStep acc x) best
        (by simpa only [List.foldl_cons] using h)
      have hstep : ∀ c, evictStep acc x = some c →
          (c.2 ≤ x.2 ∧ ∀ a, acc = some a → c.2 ≤ a.2) ∧
            (c = x ∨ acc = some c) := by
        intro c hc
        match acc with
        | none =>
            simp only [evictStep] at hc
            have := Option.some_inj.mp hc
            subst this
            exact ⟨⟨le_refl _, fun a ha => by cases ha⟩, Or.inl rfl⟩
        | some b =>
            simp only [evictStep] at hc
            by_cases hlt : x.2 < b.2
            · rw [if_pos hlt] at hc
              have := Option.some_inj.mp hc
              subst this
              exact ⟨⟨le_refl _, fun a ha =>
                le_of_lt (by rw [← Option.some_inj.mp ha]; exact hlt)⟩,
                Or.inl rfl⟩
            · rw [if_neg hlt] at hc
              have := Option.some_inj.mp hc
              subst this
              exact ⟨⟨le_of_not_lt hlt, fun a ha => by
                rw [← Option.some_inj.mp ha]⟩, Or.inr rfl⟩
      have hsome : ∃ c, evictStep acc x = some c := by
        match acc with
        | none => exact ⟨x, rfl⟩
        | some b =>
            simp only [evictStep]
            by_cases hlt : x.2 < b.2
            · exact ⟨x, by rw [if_pos hlt]⟩
            · exact ⟨b, by rw [if_neg hlt]⟩
      obtain ⟨c, hc⟩ := hsome
      obtain ⟨⟨hcx, hcacc⟩, hmem⟩ := hstep c hc
      have hbc : best.2 ≤ c.2 := ih.2.2 c hc
      refine ⟨?_, ?_, ?_⟩
      · rcases ih.1 with hm | he
        · exact Or.inl (List.mem_cons_of_mem x hm)
        · rw [hc] at he
          have := Option.some_inj.mp he
          subst this
          rcases hmem with h1 | h2
          · exact Or.inl (h1 ▸ List.mem_cons_self x t)
          · exact Or.inr h2
      · intro p hp
        rcases List.mem_cons.mp hp with h1 | h2
        · exact h1 ▸ le_trans hbc hcx
        · exact ih.2.1 p h2
      · intro a ha
        exact le_trans hbc (hcacc a ha)

theorem evictCandidate_spec (entries : List (String × Nat))
    (best : String × Nat) (h : evictCandidate entries = some best) :
    best ∈ entries ∧ ∀ p ∈ entries, best.2 ≤ p.2 := by
  have hfold : entries.foldl evictStep none = some best := by
    rw [show entries.foldl evictStep none = evictCandidate entries from rfl]
    exact h
  have := evictFold_spec entries none best hfold
  refine ⟨?_, this.2.1⟩
  rcases this.1 with h1 | h2
  · exact h1
  · cases h2

theorem mapHas_of_mem_keys {α : Type} (m : List (String × α)) (k : String)
    (h : k ∈ mapKeys m) : mapHas m k = true := by
  by_cases hh : mapHas m k = true
  · exact hh
  · exact absurd h (by
      intro hmem
      have := mapHas_false_of_not_mem m k
      by_cases hc : k ∈ mapKeys m
      · exact hh (by
          rw [mapHas_eq_keys, List.any_eq_true]
          exact ⟨k, hc, by simp⟩)
      · exact hc hmem)

theorem mapLookup_of_mem_nodup {α : Type} :
    ∀ (m : List (String × α)) (fn : String) (d : α),
      (mapKeys m).Nodup → (fn, d) ∈ m → mapLookup m fn = some d
  | (a, b) :: t, fn, d, hnd, hmem => by
      have hnd2 : a ∉ mapKeys t ∧ (mapKeys t).Nodup := by
        rw [show mapKeys ((a, b) :: t) = a :: mapKeys t from rfl] at hnd
        exact List.nodup_cons.mp hnd
      rcases List.mem_cons.mp hmem with he | ht
      · have h1 : fn = a := congrArg Prod.fst he
        have h2 : d = b := congrArg Prod.snd he
        subst h1
        subst h2
        unfold mapLookup
        rw [lookupCons, if_pos rfl]
      · have hfa : fn ≠ a := by
          intro he2
          apply hnd2.1
          exact he2 ▸ (show fn ∈ mapKeys t from
            List.mem_map_of_mem Prod.fst ht)
        unfold mapLookup
        rw [lookupCons, if_neg hfa]
        exact mapLookup_of_mem_nodup t fn d hnd2.2 ht

/-! ### C4 — the query matcher is a conjunction of per-key checks -/

/-- C4: for an object document, `matches(doc, query)` is true exactly when
every key of the query passes its per-key equality / dotted-path equality
check (logical AND), and `matches(doc, {})` with the empty query is true for
every object document. -/
theorem matches_conjunction_and_empty (fields query : JsObj) :
    (jsMatches (.vObj fields) query = true ↔
      ∀ kv ∈ query, matchesKey (.vObj fields) kv.1 kv.2 = true) ∧
    jsMatches (.vObj fields) [] = true := by
  refine ⟨?_, rfl⟩
  unfold jsMatches
  rw [show truthy (.vObj fields) = true from rfl, Bool.true_and]
  exact List.all_eq_true

/-- C4 witness: the conjunction semantics evaluated at a concrete document
and query. -/
theorem matches_conjunction_witness :
    jsMatches (.vObj [("a", .vNum 1), ("b", .vStr "x")]) [("a", .vNum 1)] =
      true :=
  (matches_conjunction_and_empty [("a", .vNum 1), ("b", .vStr "x")]
      [("a", .vNum 1)]).1.mpr (by
    intro kv hkv
    rw [List.mem_singleton.mp hkv]
    decide)

/-! ### C9 — adapter operations require a connection -/

/-- C9: every adapter data operation invoked while the adapter is not
connected (before connect() or after close()) throws the "not connected"
error — a distinct thrown error, not a boolean/absent result — and close()
lowers the connected flag so later operations fail this way. -/
theorem adapter_ops_require_connection (st : FileStoreState)
    (h : st.connected = false) (key coll genId : String) (v : JsVal)
    (doc : Doc) (now : Nat) (query upd : JsObj) :
    FileStoreAdapter.set st key v = .error notConnectedMsg ∧
    FileStoreAdapter.get st key = .error notConnectedMsg ∧
    FileStoreAdapter.has st key = .error notConnectedMsg ∧
    FileStoreAdapter.delete st key = .error notConnectedMsg ∧
    FileStoreAdapter.getCollections st = .error notConnectedMsg ∧
    FileStoreAdapter.createCollection st coll = .error notConnectedMsg ∧
    FileStoreAdapter.insert st coll doc genId now = .error notConnectedMsg ∧
    FileStoreAdapter.findOne st coll query = .error notConnectedMsg ∧
    FileStoreAdapter.find st coll query = .error notConnectedMsg ∧
    FileStoreAdapter.update st coll query upd now = .error notConnectedMsg ∧
    FileStoreAdapter.deleteFrom st coll query = .error notConnectedMsg ∧
    (FileStoreAdapter.close st).2.connected = false := by
  unfold FileStoreAdapter.set FileStoreAdapter.get FileStoreAdapter.has
    FileStoreAdapter.delete FileStoreAdapter.getCollections
    FileStoreAdapter.createCollection FileStoreAdapter.insert
    FileStoreAdapter.findOne FileStoreAdapter.find FileStoreAdapter.update
    FileStoreAdapter.deleteFrom FileStoreAdapter.close
  simp [h]

/-- C9 witness: the disconnected-state behavior at a concrete fresh state. -/
theorem adapter_ops_require_connection_witness :
    FileStoreAdapter.get ⟨false, [], [], []⟩ "k" = .error notConnectedMsg ∧
    FileStoreAdapter.insert ⟨false, [], [], []⟩ "c" [] "g" 0 =
      .error notConnectedMsg :=
  ⟨(adapter_ops_require_connection ⟨false, [], [], []⟩ rfl "k" "c" "g"
      .vNull [] 0 [] []).2.1,
   (adapter_ops_require_connection ⟨false, [], [], []⟩ rfl "k" "c" "g"
      .vNull [] 0 [] []).2.2.2.2.2.2.1⟩

/-! ### C8 — key/value round trip on the connected adapter -/

/-- C8: on a connected file store, `set(key, value)` succeeds and a following
`get(key)` returns exactly the stored value (deep-equal round trip; the
stdlib stringify/parse pair is the identity on these JSON values). -/
theorem set_get_roundtrip (st : FileStoreState) (key : String) (v : JsVal)
    (h : st.connected = true) :
    ∃ st', FileStoreAdapter.set st key v = .ok (true, st') ∧
      FileStoreAdapter.get st' key = .ok (some v) := by
  refine ⟨{ st with kvFiles := mapSet st.kvFiles (key ++ ".json") v }, ?_, ?_⟩
  · unfold FileStoreAdapter.set
    rw [if_pos h]
  · unfold FileStoreAdapter.get
    rw [if_pos h, mapLookup_mapSet_self]

/-- C8 witness: the round trip at a concrete connected state, key and
value. -/
theorem set_get_roundtrip_witness :
    ∃ st', FileStoreAdapter.set ⟨true, [], [], []⟩ "k" (.vNum 7) =
        .ok (true, st') ∧
      FileStoreAdapter.get st' "k" = .ok (some (.vNum 7)) :=
  set_get_roundtrip ⟨true, [], [], []⟩ "k" (.vNum 7) rfl

/-! ### C1 — cache is written before the adapter acknowledges -/

/-- C1 counterexample: a `set` whose adapter write throws (adapter not yet
connected) still installs the value in the in-process cache: the write was
never acknowledged — let alone durably written — yet the cache holds it,
refuting "the cache is updated only after the adapter acknowledges the write
as successful". -/
theorem cache_holds_unacknowledged_write :
    (HyperDB.set hdb0 "k" (.vStr "v") 0).1 = .error notConnectedMsg ∧
    mapLookup (HyperDB.set hdb0 "k" (.vStr "v") 0).2.cache.cache "k" =
      some (.vStr "v") ∧
    (HyperDB.set hdb0 "k" (.vStr "v") 0).2.storage.kvFiles = [] := by
  exact ⟨rfl, rfl, rfl⟩

/-- C1 amended: `HyperDB.set` updates the in-process cache first and
unconditionally — after any `set`, the cache maps the key to the new value
whether the adapter write succeeded, failed or threw, so the cache can hold a
value that was never durably written; `HyperDB.delete` likewise removes the
cache entry before the adapter delete runs. -/
theorem cache_written_before_adapter (st : HyperDBState) (key : String)
    (v : JsVal) (now : Nat) :
    mapLookup (HyperDB.set st key v now).2.cache.cache key = some v ∧
    mapHas (HyperDB.delete st key).2.cache.cache key = false := by
  have hdel : ∀ c : MemoryCacheState,
      mapHas (MemoryCache.delete c key).2.cache key = false := by
    intro c
    unfold MemoryCache.delete
    by_cases hh : mapHas c.cache key = true
    · rw [if_pos hh]
      exact mapHas_mapDelete_self _ key
    · rw [if_neg hh]
      exact Bool.eq_false_iff.mpr hh
  constructor
  · unfold HyperDB.set FileStoreAdapter.set
    by_cases hc : st.storage.connected = true
    · rw [if_pos hc]
      exact mapLookup_mapSet_self _ key v
    · rw [if_neg hc]
      exact mapLookup_mapSet_self _ key v
  · unfold HyperDB.delete FileStoreAdapter.delete
    by_cases hc : st.storage.connected = true
    · rw [if_pos hc]
      by_cases hh : mapHas st.storage.kvFiles (key ++ ".json") = true
      · rw [if_pos hh]
        exact hdel st.cache
      · rw [if_neg hh]
        exact hdel st.cache
    · rw [if_neg hc]
      exact hdel st.cache

/-! ### C7 — lazy expiry on read -/

/-- C7: a cache read never reports a value for an entry whose expiry has
passed: `get` returns a value (and `has` returns true) only for unexpired
entries; on an expired entry the access deletes it and reports absent; and
`get` removes no entry other than the accessed key. -/
theorem cache_read_never_expired (st : MemoryCacheState) (key : String)
    (now : Nat) :
    ((MemoryCache.get st key now).1.isSome = true →
      expiredAt st key now = false) ∧
    ((MemoryCache.has st key now).1 = true →
      expiredAt st key now = false) ∧
    (expiredAt st key now = true →
      (MemoryCache.get st key now).1 = none ∧
      mapHas (MemoryCache.get st key now).2.cache key = false ∧
      (MemoryCache.has st key now).1 = false ∧
      mapHas (MemoryCache.has st key now).2.cache key = false) ∧
    (∀ k', k' ≠ key →
      mapLookup (MemoryCache.get st key now).2.cache k' =
        mapLookup st.cache k' ∧
      mapLookup (MemoryCache.get st key now).2.expiry k' =
        mapLookup st.expiry k') := by
  unfold MemoryCache.get MemoryCache.has MemoryCache.delete expiredAt
  by_cases hm : mapHas st.cache key = true
  · rw [if_neg (not_not_intro hm), if_neg (not_not_intro hm)]
    cases hl : mapLookup st.expiry key with
    | none =>
        dsimp only
        refine ⟨fun _ => rfl, fun _ => rfl, fun hexp => absurd hexp (by simp),
          fun k' _ => ⟨rfl, rfl⟩⟩
    | some t =>
        dsimp only
        by_cases ht : t < now
        · rw [if_pos ht, if_pos ht, if_pos hm]
          refine ⟨by simp, by simp, fun _ => ?_, fun k' hk' => ?_⟩
          · exact ⟨rfl, mapHas_mapDelete_self _ key, rfl,
              mapHas_mapDelete_self _ key⟩
          · exact ⟨mapLookup_mapDelete_other key k' hk' st.cache,
              mapLookup_mapDelete_other key k' hk' st.expiry⟩
        · rw [if_neg ht, if_neg ht]
          refine ⟨fun _ => by simp [ht], fun _ => by simp [ht],
            fun hexp => absurd hexp (by simp [ht]), fun k' _ => ⟨rfl, rfl⟩⟩
  · rw [if_pos hm, if_pos hm]
    refine ⟨by simp, by simp, fun _ => ?_, fun k' _ => ⟨rfl, rfl⟩⟩
    exact ⟨rfl, Bool.eq_false_iff.mpr hm, rfl, Bool.eq_false_iff.mpr hm⟩

/-- C7 witness: lazy expiry observed at a concrete expired entry. -/
theorem cache_read_never_expired_witness :
    (MemoryCache.get ⟨10, 100, [("k", .vNum 1)], [("k", 5)], ⟨0, 0, 0, 0⟩⟩
      "k" 9).1 = none ∧
    mapHas (MemoryCache.get
      ⟨10, 100, [("k", .vNum 1)], [("k", 5)], ⟨0, 0, 0, 0⟩⟩ "k" 9).2.cache
      "k" = false :=
  ⟨((cache_read_never_expired
      ⟨10, 100, [("k", .vNum 1)], [("k", 5)], ⟨0, 0, 0, 0⟩⟩ "k" 9).2.2.1
      (by decide)).1,
   ((cache_read_never_expired
      ⟨10, 100, [("k", .vNum 1)], [("k", 5)], ⟨0, 0, 0, 0⟩⟩ "k" 9).2.2.1
      (by decide)).2.1⟩

/-! ### C10 — the value map and expiry map always share their key set -/

theorem keysAligned_mapSet_both (c : List (String × JsVal))
    (e : List (String × Nat)) (k : String) (v : JsVal) (t : Nat)
    (h : mapKeys c = mapKeys e) :
    mapKeys (mapSet c k v) = mapKeys (mapSet e k t) := by
  rw [mapKeys_mapSet, mapKeys_mapSet, mapHas_congr_keys c e h k, h]

theorem keysAligned_delete (st : MemoryCacheState) (k : String)
    (h : keysAligned st) : keysAligned (MemoryCache.delete st k).2 := by
  unfold MemoryCache.delete
  by_cases hh : mapHas st.cache k = true
  · rw [if_pos hh]
    show mapKeys (mapDelete st.cache k) = mapKeys (mapDelete st.expiry k)
    rw [mapKeys_mapDelete, mapKeys_mapDelete, h]
  · rw [if_neg hh]
    exact h

theorem keysAligned_evict (st : MemoryCacheState) (h : keysAligned st) :
    keysAligned (MemoryCache._evictOldest st) := by
  unfold MemoryCache._evictOldest
  cases hc : evictCandidate st.expiry with
  | none => exact h
  | some best =>
      dsimp only
      by_cases hb : best.1 ≠ ""
      · rw [if_pos hb]
        exact keysAligned_delete st best.1 h
      · rw [if_neg hb]
        exact h

theorem keysAligned_set (st : MemoryCacheState) (k : String) (v : JsVal)
    (ttlArg : Option Nat) (now : Nat) (h : keysAligned st) :
    keysAligned (MemoryCache.set st k v ttlArg now) := by
  have h1 : keysAligned
      (if st.cache.length ≥ st.maxSize ∧ ¬ (mapHas st.cache k = true) then
        MemoryCache._evictOldest st
      else st) := by
    by_cases hcnd : st.cache.length ≥ st.maxSize ∧ ¬ (mapHas st.cache k = true)
    · rw [if_pos hcnd]
      exact keysAligned_evict st h
    · rw [if_neg hcnd]
      exact h
  unfold MemoryCache.set
  exact keysAligned_mapSet_both _ _ k v _ h1

theorem keysAligned_get (st : MemoryCacheState) (k : String) (now : Nat)
    (h : keysAligned st) : keysAligned (MemoryCache.get st k now).2 := by
  unfold MemoryCache.get
  by_cases hm : mapHas st.cache k = true
  · rw [if_neg (not_not_intro hm)]
    cases hl : mapLookup st.expiry k with
    | none => exact h
    | some t =>
        dsimp only
        by_cases ht : t < now
        · rw [if_pos ht]
          exact keysAligned_delete st k h
        · rw [if_neg ht]
          exact h
  · rw [if_pos hm]
    exact h

theorem keysAligned_hasOp (st : MemoryCacheState) (k : String) (now : Nat)
    (h : keysAligned st) : keysAligned (MemoryCache.has st k now).2 := by
  unfold MemoryCache.has
  by_cases hm : mapHas st.cache k = true
  · rw [if_neg (not_not_intro hm)]
    cases hl : mapLookup st.expiry k with
    | none => exact h
    | some t =>
        dsimp only
        by_cases ht : t < now
        · rw [if_pos ht]
          exact keysAligned_delete st k h
        · rw [if_neg ht]
          exact h
  · rw [if_pos hm]
    exact h

theorem keysAligned_foldDelete (now : Nat) :
    ∀ (l : List (String × Nat)) (st : MemoryCacheState), keysAligned st →
      keysAligned (l.foldl
        (fun acc kv =>
          if kv.2 < now then (MemoryCache.delete acc kv.1).2 else acc) st)
  | [], _, h => h
  | x :: t, st, h => by
      simp only [List.foldl_cons]
      apply keysAligned_foldDelete now t
      by_cases hx : x.2 < now
      · rw [if_pos hx]
        exact keysAligned_delete st x.1 h
      · rw [if_neg hx]
        exact h

theorem keysAligned_applyCacheOp (st : MemoryCacheState) (op : CacheOp)
    (h : keysAligned st) : keysAligned (applyCacheOp st op) := by
  cases op with
  | opSet k v t n => exact keysAligned_set st k v t n h
  | opGet k n => exact keysAligned_get st k n h
  | opHas k n => exact keysAligned_hasOp st k n h
  | opDelete k => exact keysAligned_delete st k h
  | opClear => exact rfl
  | opCleanup n => exact keysAligned_foldDelete n st.expiry st h

theorem keysAligned_foldOps :
    ∀ (ops : List CacheOp) (st : MemoryCacheState), keysAligned st →
      keysAligned (ops.foldl applyCacheOp st)
  | [], _, h => h
  | op :: t, st, h =>
      keysAligned_foldOps t (applyCacheOp st op)
        (keysAligned_applyCacheOp st op h)

/-- C10: in every MemoryCache state reachable from a fresh cache by any
sequence of set, get, has, delete, clear and cleanup operations, the value
map and the expiry map hold exactly the same keys: every cached value has an
expiry timestamp and there are no orphan expiry entries. -/
theorem cache_expiry_keys_agree (maxSize ttl : Nat) (ops : List CacheOp) :
    mapKeys (runCacheOps maxSize ttl ops).cache =
      mapKeys (runCacheOps maxSize ttl ops).expiry :=
  keysAligned_foldOps ops (mkMemoryCache maxSize ttl) rfl

/-! ### C2 — insert with a duplicate id -/

/-- C2 counterexample: the first insert at time 1 stores created_at = 1;
re-inserting the same id at time 5 keeps the collection size at 1 and sets
updated_at = 5 as claimed, but resets created_at to 5 — it does not keep the
created_at assigned at the original first insert. -/
theorem insert_duplicate_resets_created_at :
    getProp ((mapLookup ((mapLookup c2st1.collDirs "c").getD [])
        "a.json").getD []) "created_at" = .vNum 1 ∧
    ((mapLookup c2st2.collDirs "c").getD []).length = 1 ∧
    getProp ((mapLookup ((mapLookup c2st2.collDirs "c").getD [])
        "a.json").getD []) "updated_at" = .vNum 5 ∧
    getProp ((mapLookup ((mapLookup c2st2.collDirs "c").getD [])
        "a.json").getD []) "created_at" = .vNum 5 ∧
    ¬ getProp ((mapLookup ((mapLookup c2st2.collDirs "c").getD [])
        "a.json").getD []) "created_at" = .vNum 1 := by
  refine ⟨rfl, rfl, rfl, rfl, fun hcontra => ?_⟩
  rw [show getProp ((mapLookup ((mapLookup c2st2.collDirs "c").getD [])
    "a.json").getD []) "created_at" = .vNum 5 from rfl] at hcontra
  injection hcontra with h5
  exact absurd h5 (by decide)

/-- C2 amended: inserting a document whose id or _id (whichever the code
selects via `docWithId.id || docWithId._id`, provided it is truthy) is
already present in the collection replaces the stored document in place —
the number of documents is unchanged and updated_at is the replacing
insert's timestamp — but created_at is also reset to the replacing insert's
timestamp rather than keeping the value assigned at the original first
insert. -/
theorem insert_duplicate_replaces_in_place (st : FileStoreState)
    (coll : String) (doc : Doc) (genId : String) (now : Nat) (idv : JsVal)
    (hconn : st.connected = true)
    (hn : normalizeName coll = coll)
    (hid : jsOr (getProp doc "id") (getProp doc "_id") = idv)
    (htruthy : truthy idv = true)
    (hcoll : st.collections.contains coll = true)
    (hdir : mapHas st.collDirs coll = true)
    (hdup : mapHas ((mapLookup st.collDirs coll).getD [])
      (jsToString idv ++ ".json") = true) :
    ∃ st', FileStoreAdapter.insert st coll doc genId now = .ok (true, st') ∧
      ((mapLookup st'.collDirs coll).getD []).length =
        ((mapLookup st.collDirs coll).getD []).length ∧
      mapLookup ((mapLookup st'.collDirs coll).getD [])
          (jsToString idv ++ ".json") =
        some (mapSet (mapSet doc "created_at" (.vNum now))
          "updated_at" (.vNum now)) := by
  have hnotboth : ¬ (¬ truthy (getProp doc "id") = true ∧
      ¬ truthy (getProp doc "_id") = true) := by
    rintro ⟨h1, h2⟩
    by_cases ha : truthy (getProp doc "id") = true
    · exact h1 ha
    · have hsnd : jsOr (getProp doc "id") (getProp doc "_id") =
          getProp doc "_id" := by
        unfold jsOr
        rw [if_neg ha]
      rw [hsnd] at hid
      exact h2 (hid.symm ▸ htruthy)
  have hproj : (mapLookup (insertReplacedState st coll doc now idv).collDirs
      coll).getD [] =
      mapSet ((mapLookup st.collDirs coll).getD [])
        (jsToString idv ++ ".json")
        (mapSet (mapSet doc "created_at" (.vNum now))
          "updated_at" (.vNum now)) := by
    dsimp only [insertReplacedState]
    rw [mapLookup_mapSet_self]
    rfl
  refine ⟨insertReplacedState st coll doc now idv, ?_, ?_, ?_⟩
  · unfold FileStoreAdapter.insert FileStoreAdapter.createCollection
    rw [if_pos hconn]
    rw [hn]
    dsimp only
    rw [if_pos hconn]
    rw [hn]
    dsimp only
    rw [if_pos hdir, if_pos hcoll]
    rw [if_neg hnotboth]
    rw [hid]
    dsimp only [insertReplacedState]
  · rw [hproj]
    exact length_mapSet_has _ _ _ hdup
  · rw [hproj]
    exact mapLookup_mapSet_self _ _ _

/-! ### C3 — update applies patches as a literal shallow spread -/

/-- C3 counterexample: updating with the dot-path patch key "meta.count"
stores a literal top-level property named "meta.count" and leaves the nested
`meta.count` field untouched at its old value — the patch is not applied as a
nested merge. -/
theorem update_dot_key_stored_literally :
    FileStoreAdapter.update c3st "c" [("id", .vStr "a")]
      [("meta.count", .vNum 2)] 9 = .ok (1, c3st2) ∧
    getProp c3newDoc "meta.count" = .vNum 2 ∧
    navigate (.vObj c3newDoc) ["meta", "count"] = some (.vNum 1) ∧
    getProp c3newDoc "updated_at" = .vNum 9 := by
  exact ⟨rfl, rfl, rfl, rfl⟩

theorem foldl_mapSet_lookup_frozen (k : String) :
    ∀ (l : JsObj) (acc : JsObj), k ∉ mapKeys l →
      mapLookup (l.foldl (fun a kv => mapSet a kv.1 kv.2) acc) k =
        mapLookup acc k
  | [], _, _ => rfl
  | (k0, v0) :: t, acc, h => by
      have hk0 : k ≠ k0 := fun he => h (by
        rw [he, show mapKeys ((k0, v0) :: t) = k0 :: mapKeys t from rfl]
        exact List.mem_cons_self _ _)
      simp only [List.foldl_cons]
      rw [foldl_mapSet_lookup_frozen k t _
        (fun hm => h (by
          rw [show mapKeys ((k0, v0) :: t) = k0 :: mapKeys t from rfl]
          exact List.mem_cons_of_mem _ hm))]
      exact mapLookup_mapSet_other acc k0 k v0 hk0

theorem foldl_mapSet_lookup_found (k : String) (v : JsVal) :
    ∀ (l : JsObj) (acc : JsObj), (mapKeys l).Nodup →
      mapLookup l k = some v →
      mapLookup (l.foldl (fun a kv => mapSet a kv.1 kv.2) acc) k = some v
  | (k0, v0) :: t, acc, hnd, hl => by
      have hnd2 : k0 ∉ mapKeys t ∧ (mapKeys t).Nodup := by
        rw [show mapKeys ((k0, v0) :: t) = k0 :: mapKeys t from rfl] at hnd
        exact List.nodup_cons.mp hnd
      simp only [List.foldl_cons]
      by_cases hk : k0 = k
      · have hv : v0 = v := by
          unfold mapLookup at hl
          rw [lookupCons, if_pos hk.symm] at hl
          exact Option.some_inj.mp hl
        subst hk
        subst hv
        rw [foldl_mapSet_lookup_frozen k0 t _ hnd2.1]
        exact mapLookup_mapSet_self acc k0 v0
      · have hl2 : mapLookup t k = some v := by
          unfold mapLookup at hl ⊢
          rw [lookupCons, if_neg (fun he => hk he.symm)] at hl
          exact hl
        exact foldl_mapSet_lookup_found k v t _ hnd2.2 hl2

/-- The spread merge looks up a patch key (with distinct patch keys) to the
patch's value: every patch entry lands as a literal top-level property. -/
theorem spreadMerge_lookup (doc upd : JsObj) (k : String) (v : JsVal)
    (hnd : (mapKeys upd).Nodup) (h : mapLookup upd k = some v) :
    mapLookup (spreadMerge doc upd) k = some v :=
  foldl_mapSet_lookup_found k v upd doc hnd h

theorem updateFold_frozen (upd : JsObj) (now : Nat) :
    ∀ (ds : List Doc) (acc : List (String × Doc)) (fn : String),
      (∀ dd ∈ ds, docFileName dd ≠ fn) →
      mapLookup (ds.foldl
        (fun a dd => mapSet a (docFileName dd)
          (fileStoreUpdatedDoc dd upd now)) acc) fn = mapLookup acc fn
  | [], _, _, _ => rfl
  | dd0 :: ds, acc, fn, h => by
      simp only [List.foldl_cons]
      rw [updateFold_frozen upd now ds _ _
        (fun dd hdd => h dd (List.mem_cons_of_mem _ hdd))]
      exact mapLookup_mapSet_other acc (docFileName dd0) fn
        (fileStoreUpdatedDoc dd0 upd now)
        (fun he => h dd0 (List.mem_cons_self _ _) he.symm)

theorem updateFold_lookup (upd : JsObj) (now : Nat) (query : JsObj) :
    ∀ (dir : List (String × Doc)) (acc : List (String × Doc)),
      (∀ p ∈ dir, p.1 = docFileName p.2) →
      (mapKeys dir).Nodup →
      ∀ fn d, (fn, d) ∈ dir →
        mapLookup ((matchedDocs dir query).foldl
          (fun a dd => mapSet a (docFileName dd)
            (fileStoreUpdatedDoc dd upd now)) acc) fn =
          if updateSelector query d = true then
            some (fileStoreUpdatedDoc d upd now)
          else mapLookup acc fn
  | [], _, _, _, fn, d, hmem => absurd hmem (List.not_mem_nil _)
  | (fn0, d0) :: rest, acc, hfn, hnd, fn, d, hmem => by
      have hfn0 : fn0 = docFileName d0 := hfn (fn0, d0) (List.mem_cons_self _ _)
      have hnd2 : fn0 ∉ mapKeys rest ∧ (mapKeys rest).Nodup := by
        rw [show mapKeys ((fn0, d0) :: rest) = fn0 :: mapKeys rest from rfl]
          at hnd
        exact List.nodup_cons.mp hnd
      have hfreeze : ∀ dd ∈ matchedDocs rest query, docFileName dd ≠ fn0 := by
        intro dd hdd hcontra
        obtain ⟨p, hp, hpd⟩ := List.mem_filterMap.mp hdd
        have hpd2 : p.2 = dd := by
          by_cases hs : updateSelector query p.2 = true
          · rw [if_pos hs] at hpd
            exact Option.some_inj.mp hpd
          · rw [if_neg hs] at hpd
            cases hpd
        apply hnd2.1
        rw [← hcontra, ← hpd2, ← hfn p (List.mem_cons_of_mem _ hp)]
        exact List.mem_map_of_mem Prod.fst hp
      have hmd : matchedDocs ((fn0, d0) :: rest) query =
          if updateSelector query d0 = true then
            d0 :: matchedDocs rest query
          else matchedDocs rest query := by
        unfold matchedDocs
        rw [List.filterMap_cons]
        dsimp only
        by_cases hs : updateSelector query d0 = true
        · rw [if_pos hs, if_pos hs]
        · rw [if_neg hs, if_neg hs]
      rcases List.mem_cons.mp hmem with he | ht
      · have h1 : fn = fn0 := congrArg Prod.fst he
        have h2 : d = d0 := congrArg Prod.snd he
        subst h1
        subst h2
        rw [hmd]
        by_cases hs : updateSelector query d = true
        · rw [if_pos hs, if_pos hs]
          simp only [List.foldl_cons]
          rw [updateFold_frozen upd now (matchedDocs rest query) _ _ hfreeze]
          rw [hfn0]
          exact mapLookup_mapSet_self acc (docFileName d)
            (fileStoreUpdatedDoc d upd now)
        · rw [if_neg hs, if_neg hs]
          exact updateFold_frozen upd now (matchedDocs rest query) acc fn hfreeze
      · have hfnkeys : fn ∈ mapKeys rest :=
          List.mem_map_of_mem Prod.fst ht
        have hne : fn ≠ fn0 := fun he2 => hnd2.1 (he2 ▸ hfnkeys)
        rw [hmd]
        by_cases hs0 : updateSelector query d0 = true
        · rw [if_pos hs0]
          simp only [List.foldl_cons]
          rw [updateFold_lookup upd now query rest
            (mapSet acc (docFileName d0) (fileStoreUpdatedDoc d0 upd now))
            (fun p hp => hfn p (List.mem_cons_of_mem _ hp)) hnd2.2 fn d ht]
          by_cases hsd : updateSelector query d = true
          · rw [if_pos hsd, if_pos hsd]
          · rw [if_neg hsd, if_neg hsd]
            exact mapLookup_mapSet_other acc (docFileName d0) fn
              (fileStoreUpdatedDoc d0 upd now) (hfn0 ▸ hne)
        · rw [if_neg hs0]
          exact updateFold_lookup upd now query rest acc
            (fun p hp => hfn p (List.mem_cons_of_mem _ hp)) hnd2.2 fn d ht

/-- C3 amended: for every stored document matched by the query, update
rewrites that document's file with the literal object spread
`{...doc, ...patch, updated_at: now}` and leaves every unmatched document's
file untouched; a patch key containing a dot path is thereby stored verbatim
as a literal top-level property carrying the patch's value — it is not
applied as a nested merge (`deepUpdate` exists in utils but is not
invoked). -/
theorem update_spreads_patch_literally (st : FileStoreState) (coll : String)
    (query upd : JsObj) (now : Nat)
    (hconn : st.connected = true)
    (hn : normalizeName coll = coll)
    (hcoll : st.collections.contains coll = true)
    (hfn : ∀ p ∈ (mapLookup st.collDirs coll).getD [],
      p.1 = docFileName p.2)
    (hnd : (mapKeys ((mapLookup st.collDirs coll).getD [])).Nodup) :
    ∃ st', FileStoreAdapter.update st coll query upd now =
        .ok ((matchedDocs ((mapLookup st.collDirs coll).getD []) query).length,
          st') ∧
      updateWritten ((mapLookup st'.collDirs coll).getD [])
        ((mapLookup st.collDirs coll).getD []) query upd now ∧
      (∀ (d : Doc) (k : String) (v : JsVal), (mapKeys upd).Nodup →
        k ≠ "updated_at" → mapLookup upd k = some v →
        mapLookup (fileStoreUpdatedDoc d upd now) k = some v) := by
  have hlit : ∀ (d : Doc) (k : String) (v : JsVal), (mapKeys upd).Nodup →
      k ≠ "updated_at" → mapLookup upd k = some v →
      mapLookup (fileStoreUpdatedDoc d upd now) k = some v := by
    intro d k v hndu hk hupd
    unfold fileStoreUpdatedDoc
    rw [mapLookup_mapSet_other _ _ _ _ hk]
    exact spreadMerge_lookup d upd k v hndu hupd
  have hfind : FileStoreAdapter.find st coll query =
      .ok (matchedDocs ((mapLookup st.collDirs coll).getD []) query) := by
    unfold FileStoreAdapter.find
    rw [if_pos hconn, hn]
    dsimp only
    rw [if_neg (not_not_intro hcoll)]
    rfl
  cases hmd : matchedDocs ((mapLookup st.collDirs coll).getD []) query with
  | nil =>
      refine ⟨st, ?_, ?_, hlit⟩
      · unfold FileStoreAdapter.update
        rw [if_pos hconn, hn]
        dsimp only
        rw [if_neg (not_not_intro hcoll), hfind, hmd]
        rfl
      · intro fn d hmem
        constructor
        · intro hsel
          exfalso
          have hdin : d ∈ matchedDocs ((mapLookup st.collDirs coll).getD [])
              query := by
            apply List.mem_filterMap.mpr
            exact ⟨(fn, d), hmem, by rw [if_pos hsel]⟩
          rw [hmd] at hdin
          exact absurd hdin (List.not_mem_nil d)
        · intro _
          exact mapLookup_of_mem_nodup _ fn d hnd hmem
  | cons d0 ds =>
      refine ⟨{ st with collDirs :=
        (mapSet st.collDirs coll ((d0 :: ds).foldl
          (fun a dd => mapSet a (docFileName dd)
            (fileStoreUpdatedDoc dd upd now))
          ((mapLookup st.collDirs coll).getD []))) }, ?_, ?_, hlit⟩
      · unfold FileStoreAdapter.update
        rw [if_pos hconn, hn]
        dsimp only
        rw [if_neg (not_not_intro hcoll), hfind]
        dsimp only
        rw [hmd]
        rw [if_neg (show ¬ (List.isEmpty (d0 :: ds) = true) by simp)]
      · have hdirp : (mapLookup ({ st with collDirs :=
            (mapSet st.collDirs coll ((d0 :: ds).foldl
              (fun a dd => mapSet a (docFileName dd)
                (fileStoreUpdatedDoc dd upd now))
              ((mapLookup st.collDirs coll).getD []))) } :
            FileStoreState).collDirs coll).getD [] =
            (d0 :: ds).foldl
              (fun a dd => mapSet a (docFileName dd)
                (fileStoreUpdatedDoc dd upd now))
              ((mapLookup st.collDirs coll).getD []) := by
          dsimp only
          rw [mapLookup_mapSet_self]
          rfl
        unfold updateWritten
        rw [hdirp]
        intro fn d hmem
        have hkey := updateFold_lookup upd now query
          ((mapLookup st.collDirs coll).getD [])
          ((mapLookup st.collDirs coll).getD []) hfn hnd fn d hmem
        rw [hmd] at hkey
        constructor
        · intro hsel
          rw [hkey, if_pos hsel]
        · intro hsel
          rw [hkey, if_neg (ne_true_of_eq_false hsel)]
          exact mapLookup_of_mem_nodup _ fn d hnd hmem

/-- C3 witness: the multi-document update evaluated at a concrete store with
two matched documents and one unmatched document. -/
theorem update_spreads_patch_literally_witness :
    ∃ st', FileStoreAdapter.update c3multiSt "c" [("grp", .vStr "g1")]
        [("meta.count", .vNum 2)] 9 =
        .ok ((matchedDocs ((mapLookup c3multiSt.collDirs "c").getD [])
          [("grp", .vStr "g1")]).length, st') ∧
      updateWritten ((mapLookup st'.collDirs "c").getD [])
        ((mapLookup c3multiSt.collDirs "c").getD [])
        [("grp", .vStr "g1")] [("meta.count", .vNum 2)] 9 ∧
      (∀ (d : Doc) (k : String) (v : JsVal),
        (mapKeys [("meta.count", JsVal.vNum 2)]).Nodup →
        k ≠ "updated_at" →
        mapLookup [("meta.count", JsVal.vNum 2)] k = some v →
        mapLookup (fileStoreUpdatedDoc d [("meta.count", .vNum 2)] 9) k =
          some v) :=
  update_spreads_patch_literally c3multiSt "c" [("grp", .vStr "g1")]
    [("meta.count", .vNum 2)] 9 rfl (by decide) (by decide) (by decide)
    (by decide)

/-- C2 witness: replacement-in-place applied at a concrete state whose
stored document is identified only by a truthy `_id`. -/
theorem insert_duplicate_replaces_in_place_witness :
    ∃ st', FileStoreAdapter.insert c2idSt "c"
        [("_id", .vStr "b"), ("y", .vNum 2)] "g2" 5 = .ok (true, st') ∧
      ((mapLookup st'.collDirs "c").getD []).length =
        ((mapLookup c2idSt.collDirs "c").getD []).length ∧
      mapLookup ((mapLookup st'.collDirs "c").getD [])
          (jsToString (.vStr "b") ++ ".json") =
        some (mapSet (mapSet [("_id", .vStr "b"), ("y", .vNum 2)]
          "created_at" (.vNum 5)) "updated_at" (.vNum 5)) :=
  insert_duplicate_replaces_in_place c2idSt "c"
    [("_id", .vStr "b"), ("y", .vNum 2)] "g2" 5 (.vStr "b")
    rfl (by decide) rfl rfl (by decide) (by decide) (by decide)

/-! ### C5 — findOne's id fast path versus scan-plus-match -/

/-- C5 counterexample: with query `{id: "a", status: "active"}` the fast path
of findOne returns the stored document with status "inactive" although the
matcher rejects it: the first-match-of-scan is none and find returns [], so
the id fast path is not equivalent to scan-plus-match, and findOne returns a
document that does not satisfy all fields of the query. -/
theorem findOne_fast_path_ignores_query_fields :
    FileStoreAdapter.findOne c5st "c" c5q =
      .ok (some [("id", .vStr "a"), ("status", .vStr "inactive")]) ∧
    jsMatches (.vObj [("id", .vStr "a"), ("status", .vStr "inactive")]) c5q =
      false ∧
    (((mapLookup c5st.collDirs "c").getD []).find?
      (fun fd => jsMatches (.vObj fd.2) c5q)).map Prod.snd = none ∧
    FileStoreAdapter.find c5st "c" c5q = .ok [] := by
  exact ⟨rfl, rfl, rfl, rfl⟩

/-- C5 amended: `find` always performs the full scan and returns exactly the
documents accepted by the matcher (all documents when the query is empty),
while `findOne` with a truthy `id`/`_id` in the query performs only the
direct file read named by that id, ignoring the query's remaining fields —
the fast path is not equivalent to scan-plus-match. -/
theorem find_is_scan_and_findOne_is_id_read (st : FileStoreState)
    (coll : String) (query : JsObj)
    (hconn : st.connected = true)
    (hn : normalizeName coll = coll)
    (hcoll : st.collections.contains coll = true) :
    (∀ docs, FileStoreAdapter.find st coll query = .ok docs →
      ∀ d, d ∈ docs ↔
        ∃ fn, (fn, d) ∈ (mapLookup st.collDirs coll).getD [] ∧
          (query.isEmpty || jsMatches (.vObj d) query) = true) ∧
    (truthy (jsOr (getProp query "id") (getProp query "_id")) = true →
      FileStoreAdapter.findOne st coll query =
        .ok (mapLookup ((mapLookup st.collDirs coll).getD [])
          (jsToString (jsOr (getProp query "id") (getProp query "_id")) ++
            ".json"))) := by
  constructor
  · intro docs hdocs d
    have hval : FileStoreAdapter.find st coll query =
        .ok (((mapLookup st.collDirs coll).getD []).filterMap
          (fun fd =>
            if (query.isEmpty || jsMatches (.vObj fd.2) query) = true then
              some fd.2
            else none)) := by
      unfold FileStoreAdapter.find
      rw [if_pos hconn, hn]
      dsimp only
      rw [if_neg (not_not_intro hcoll)]
    rw [hval] at hdocs
    have hdocs2 := Except.ok.inj hdocs
    rw [← hdocs2]
    rw [List.mem_filterMap]
    constructor
    · rintro ⟨fd, hmem, hfd⟩
      by_cases hc : (query.isEmpty || jsMatches (.vObj fd.2) query) = true
      · rw [if_pos hc] at hfd
        have := Option.some_inj.mp hfd
        subst this
        exact ⟨fd.1, hmem, hc⟩
      · rw [if_neg hc] at hfd
        cases hfd
    · rintro ⟨fn, hmem, hc⟩
      refine ⟨(fn, d), hmem, ?_⟩
      rw [if_pos hc]
  · intro htruthy
    unfold FileStoreAdapter.findOne
    rw [if_pos hconn, hn]
    dsimp only
    rw [if_neg (not_not_intro hcoll), if_pos htruthy]

/-- C5 witness: the id fast path evaluated at the concrete store — the result
is the direct file read keyed by the query's id. -/
theorem find_is_scan_and_findOne_is_id_read_witness :
    FileStoreAdapter.findOne c5st "c" c5q =
      .ok (mapLookup ((mapLookup c5st.collDirs "c").getD [])
        (jsToString (jsOr (getProp c5q "id") (getProp c5q "_id")) ++
          ".json")) :=
  (find_is_scan_and_findOne_is_id_read c5st "c" c5q rfl (by decide)
    (by decide)).2 rfl

/-! ### C6 — eviction at capacity -/

/-- C6 counterexample: with maxSize 1 and the single stored key being the
empty string, setting a new key computes the empty-string key as the eviction
candidate but skips deleting it (the source's `if (oldestKey)` is false for
the falsy key ""), so nothing is evicted and the cache ends with 2 entries
although maxSize is 1. -/
theorem evict_skips_falsy_key :
    (runCacheOps 1 100 [.opSet "" (.vNum 1) none 0,
      .opSet "a" (.vNum 2) none 0]).cache.length = 2 ∧
    mapHas (runCacheOps 1 100 [.opSet "" (.vNum 1) none 0,
      .opSet "a" (.vNum 2) none 0]).cache "" = true ∧
    (mkMemoryCache 1 100).maxSize = 1 := by
  exact ⟨rfl, rfl, rfl⟩

/-- C6 amended: when the cache holds maxSize entries, the inserted key is
new, and the eviction candidate (the first entry with the lowest expires_at)
has a truthy (non-empty) key, exactly that entry is evicted and the resulting
size equals maxSize; when the candidate key is the empty string the eviction
is skipped and the size exceeds maxSize (see the counterexample). -/
theorem evict_lowest_expiry_when_truthy (st : MemoryCacheState)
    (key : String) (v : JsVal) (ttlArg : Option Nat) (now : Nat)
    (k0 : String) (t0 : Nat)
    (hsize : st.cache.length = st.maxSize)
    (hnew : mapHas st.cache key = false)
    (hcand : evictCandidate st.expiry = some (k0, t0))
    (hk0 : k0 ≠ "")
    (hnd : (mapKeys st.cache).Nodup)
    (haligned : mapKeys st.cache = mapKeys st.expiry) :
    (MemoryCache.set st key v ttlArg now).cache.length = st.maxSize ∧
    mapHas (MemoryCache.set st key v ttlArg now).cache k0 = false ∧
    mapHas (MemoryCache.set st key v ttlArg now).cache key = true ∧
    (∀ p ∈ st.expiry, t0 ≤ p.2) := by
  have hspec := evictCandidate_spec st.expiry (k0, t0) hcand
  have hk0mem : k0 ∈ mapKeys st.expiry :=
    List.mem_map_of_mem Prod.fst hspec.1
  have hk0cache : mapHas st.cache k0 = true := by
    apply mapHas_of_mem_keys
    rw [haligned]
    exact hk0mem
  have hk0key : k0 ≠ key := by
    intro he
    rw [he, hnew] at hk0cache
    cases hk0cache
  have hcond : st.cache.length ≥ st.maxSize ∧
      ¬ (mapHas st.cache key = true) := ⟨ge_of_eq hsize, by simp [hnew]⟩
  have hdc : (MemoryCache.delete st k0).2.cache = mapDelete st.cache k0 := by
    unfold MemoryCache.delete
    rw [if_pos hk0cache]
  have hevict : MemoryCache._evictOldest st = (MemoryCache.delete st k0).2 := by
    unfold MemoryCache._evictOldest
    rw [hcand]
    dsimp only
    rw [if_pos hk0]
  have hsetcache : (MemoryCache.set st key v ttlArg now).cache =
      mapSet (mapDelete st.cache k0) key v := by
    unfold MemoryCache.set
    dsimp only
    rw [if_pos hcond, hevict, hdc]
  have hdelnew : mapHas (mapDelete st.cache k0) key = false := by
    rw [mapHas_mapDelete_other st.cache k0 key (fun he => hk0key he.symm)]
    exact hnew
  refine ⟨?_, ?_, ?_, hspec.2⟩
  · rw [hsetcache, length_mapSet_new _ _ _ hdelnew]
    have hlen := length_mapDelete_has k0 st.cache hnd hk0cache
    rw [hsize] at hlen
    exact hlen
  · rw [hsetcache, mapHas_mapSet_other _ key k0 v hk0key]
    exact mapHas_mapDelete_self st.cache k0
  · rw [hsetcache]
    exact mapHas_mapSet_self _ key v

/-- C6 witness: eviction of the earliest-to-expire truthy key at a concrete
full cache. -/
theorem evict_lowest_expiry_when_truthy_witness :
    (MemoryCache.set (runCacheOps 2 100 [.opSet "a" (.vNum 1) (some 5) 0,
        .opSet "b" (.vNum 2) (some 50) 0]) "cc" (.vNum 3) none 0).cache.length =
      (runCacheOps 2 100 [.opSet "a" (.vNum 1) (some 5) 0,
        .opSet "b" (.vNum 2) (some 50) 0]).maxSize ∧
    mapHas (MemoryCache.set (runCacheOps 2 100 [.opSet "a" (.vNum 1) (some 5) 0,
        .opSet "b" (.vNum 2) (some 50) 0]) "cc" (.vNum 3) none 0).cache "a" =
      false ∧
    mapHas (MemoryCache.set (runCacheOps 2 100 [.opSet "a" (.vNum 1) (some 5) 0,
        .opSet "b" (.vNum 2) (some 50) 0]) "cc" (.vNum 3) none 0).cache "cc" =
      true ∧
    (∀ p ∈ (runCacheOps 2 100 [.opSet "a" (.vNum 1) (some 5) 0,
        .opSet "b" (.vNum 2) (some 50) 0]).expiry, 5 ≤ p.2) :=
  evict_lowest_expiry_when_truthy
    (runCacheOps 2 100 [.opSet "a" (.vNum 1) (some 5) 0,
      .opSet "b" (.vNum 2) (some 50) 0]) "cc" (.vNum 3) none 0 "a" 5
    (by decide) (by decide) (by decide) (by decide) (by decide) (by decide)

end HyperDbX
